import Mathlib

/-!
Verification of the brand-sales aggregation pipeline (`sales_numbers.py`).

The Python source is shallowly embedded: a pandas `DataFrame` becomes a
`Table` (a list of column names plus rows of name/cell pairs), monetary
values become exact rationals `ℚ` (abstracting IEEE-754 rounding, which
none of the structural claims depend on), and raised Python exceptions
become `Except SalesError`.  Each definition below is a direct
transcription of the corresponding function of the source file.
-/

deriving instance DecidableEq for Except

namespace BrandSales

/-- A cell of the uploaded table: a missing value (`None`/`NaN`, exactly the
values on which `pd.isna` is true), an already-numeric value (Python `int`
or `float`, embedded as an exact rational), or a string. -/
inductive Cell where
  | null : Cell
  | num : ℚ → Cell
  | str : String → Cell
deriving DecidableEq

/-- A pandas `DataFrame`: an ordered list of column names and rows given as
association lists from column name to cell.  `pd.read_csv` gives every row
a cell for every header column and mangles duplicate header names, so the
tables reaching the pipeline have pairwise distinct column names and
lookups by name are unambiguous. -/
structure Table where
  cols : List String
  rows : List (List (String × Cell))
deriving DecidableEq

/-- The exceptions raised by the pipeline.  `missingColumn` models the
`ValueError` raised by `find_sales_columns` (the spec's
`MissingColumnError`), `missingField` models the pandas `KeyError` raised
by `df['SKU']` when the column is absent (the spec's `MissingFieldError`),
and `valueError` models the `ValueError` raised by Python's `float()` on a
malformed string, carrying the offending string. -/
inductive SalesError where
  | missingColumn : String → SalesError
  | missingField : String → SalesError
  | valueError : String → SalesError
deriving DecidableEq

/-- One row of the returned summary: the `Brand`, `Consumer Sales`,
`B2B Sales` and `Total Sales` columns produced by `aggregate_sales`. -/
structure SummaryRow where
  brand : String
  consumer : ℚ
  b2b : ℚ
  total : ℚ
deriving DecidableEq

/-- The characters matched by Python's regex `\s` in the ASCII range (the
CSV headers handled here contain no Unicode whitespace). -/
def isPySpace (c : Char) : Bool :=
  c == ' ' || c == '\t' || c == '\n' || c == '\r' || c == '\x0b' || c == '\x0c'

/-- Python `str.strip()`: drop leading and trailing whitespace. -/
def pyStrip (s : String) : String :=
  ⟨((s.data.dropWhile isPySpace).reverse.dropWhile isPySpace).reverse⟩

/-- Python `str.lower()` on the ASCII header names handled here. -/
def pyLower (s : String) : String :=
  ⟨s.data.map Char.toLower⟩

/-- The normalized header name computed in `find_sales_columns`:
`col.strip().lower()`. -/
def normName (s : String) : String :=
  pyLower (pyStrip s)

/-- The test `re.match(r'ordered product sales\s*[–-]\s*b2b', name, re.I)`
applied to the already-lowercased normalized name: an anchored match of
the literal header text, any amount of whitespace, exactly one en-dash or
hyphen, any amount of whitespace, then `b2b`; anything may follow (it is a
match, not a fullmatch). -/
def b2bMatch (name : String) : Bool :=
  let cs := name.data
  let pre := "ordered product sales".data
  if pre.isPrefixOf cs then
    match (cs.drop pre.length).dropWhile isPySpace with
    | d :: rest => (d == '–' || d == '-') && "b2b".data.isPrefixOf (rest.dropWhile isPySpace)
    | [] => false
  else false

/-- One step of the header loop of `find_sales_columns`: the loop keeps the
last column whose normalized name is exactly `ordered product sales` and,
independently, the last column whose normalized name matches the B2B
regex. -/
def findStep (acc : Option String × Option String) (col : String) :
    Option String × Option String :=
  let name := normName col
  let acc1 := if name = "ordered product sales" then (some col, acc.2) else acc
  if b2bMatch name then (acc1.1, some col) else acc1

/-- `find_sales_columns(df)`: scan the header; if no consumer-sales column
was found raise `ValueError("Couldn't find 'Ordered Product Sales'
column.")`, otherwise return the consumer column name and the optional B2B
column name (`None` when absent). -/
def find_sales_columns (t : Table) : Except SalesError (String × Option String) :=
  let r := t.cols.foldl findStep (none, none)
  match r.1 with
  | none => .error (.missingColumn "Couldn't find 'Ordered Product Sales' column.")
  | some c => .ok (c, r.2)

/-- The numeric value of a list of decimal digit characters (most
significant first), as read by Python's `float()`. -/
def natOfDigits (cs : List Char) : ℕ :=
  cs.foldl (fun n c => 10 * n + (c.toNat - 48)) 0

/-- CPython `float()` on the digits-and-dots strings produced by the strip
in `parse_money`: an optional run of digits, optionally a single dot and a
second run of digits, with at least one digit overall (`"5."` and `".5"`
are legal, `"."`, `""` and strings with two dots are not).  On a malformed
string it raises `ValueError` (modeled with the offending string). -/
def pyFloat (cs : List Char) : Except SalesError ℚ :=
  let ip := cs.takeWhile Char.isDigit
  match cs.dropWhile Char.isDigit with
  | [] =>
      if ip.isEmpty then .error (.valueError (String.mk cs))
      else .ok (natOfDigits ip)
  | '.' :: frac =>
      if frac.all Char.isDigit && !(ip.isEmpty && frac.isEmpty) then
        .ok ((natOfDigits ip : ℚ) + (natOfDigits frac : ℚ) / 10 ^ frac.length)
      else .error (.valueError (String.mk cs))
  | _ :: _ => .error (.valueError (String.mk cs))

/-- The strip `re.sub(r'[^0-9.]', '', value)`: keep only decimal digits
and dots. -/
def cleanMoney (s : String) : List Char :=
  s.data.filter (fun c => c.isDigit || c == '.')

/-- `parse_money(value)`: `0.0` for a missing value, numeric values
converted to float unchanged, and strings stripped to digits-and-dots and
then given to `float()` (empty remainder gives `0.0`). -/
def parse_money (v : Cell) : Except SalesError ℚ :=
  match v with
  | .null => .ok 0
  | .num q => .ok q
  | .str s =>
      let clean := cleanMoney s
      if clean.isEmpty then .ok 0 else pyFloat clean

/-- `BRAND_MAP`: the ordered SKU-pattern → brand rules.  The Python dict
iterates in insertion order; the regex patterns `'^TH_'`, `'^EU-PG-'` and
`'^EU-PC-B-'` contain no metacharacters besides the anchor, so `re.match`
on them is a case-sensitive literal test at the start of the SKU. -/
def BRAND_MAP : List (String × String) :=
  [("TH_", "Theonia EU"), ("EU-PG-", "PupGrade EU"), ("EU-PC-B-", "Cosy House EU")]

/-- The rule loop of `detect_brand`: return the brand of the first rule
whose pattern matches at the start of the SKU. -/
def detectLoop : List (String × String) → String → String
  | [], _ => "Other"
  | (pat, brand) :: rest, sku =>
      if pat.data.isPrefixOf sku.data then brand else detectLoop rest sku

/-- `detect_brand(sku)`. -/
def detect_brand (sku : String) : String :=
  detectLoop BRAND_MAP sku

/-- Python `str()` restricted to the cells a SKU column can hold: a string
is itself, a missing value prints as `nan` (as `str(float('nan'))` does),
and a numeric value prints via its rational representation (formatting
differences to Python's float repr cannot affect a claim: no brand pattern
matches a numeral). -/
def pyStr : Cell → String
  | .str s => s
  | .null => "nan"
  | .num q => toString q

/-- `df[c]` for a column name `c`: the cells of that column, row by row. -/
def column (t : Table) (c : String) : List Cell :=
  t.rows.map (fun r => ((r.find? (fun p => p.1 == c)).map Prod.snd).getD Cell.null)

/-- Overwrite the value of field `n` in one row, appending the field when
absent. -/
def setInRow : List (String × Cell) → String → Cell → List (String × Cell)
  | [], n, v => [(n, v)]
  | (k, w) :: rest, n, v =>
      if k = n then (n, v) :: rest else (k, w) :: setInRow rest n v

/-- The column assignment `df[n] = vals`: overwrite column `n` in place if
present, otherwise append it as the last column. -/
def setCol (t : Table) (n : String) (vals : List Cell) : Table :=
  { cols := if n ∈ t.cols then t.cols else t.cols ++ [n],
    rows := List.zipWith (fun r v => setInRow r n v) t.rows vals }

/-- `Series.apply(parse_money)`: apply elementwise, aborting with the first
raised exception. -/
def seriesApply : List Cell → Except SalesError (List ℚ)
  | [] => .ok []
  | c :: rest =>
      match parse_money c, seriesApply rest with
      | .error e, _ => .error e
      | .ok _, .error e => .error e
      | .ok q, .ok qs => .ok (q :: qs)

/-- `df.groupby('Brand')[...].sum()` followed by the renames and
`reset_index()`: the group keys are the distinct brand labels in
ascending lexicographic order (pandas `groupby` sorts its keys), and each
summary row holds the per-brand sums of the three derived columns. -/
def groupSummary (l : List (String × ℚ × ℚ × ℚ)) : List SummaryRow :=
  (List.insertionSort (fun a b : String => a ≤ b) (l.map (fun p => p.1)).dedup).map
    (fun k =>
      let g := l.filter (fun p => p.1 == k)
      ⟨k, (g.map (fun p => p.2.1)).sum, (g.map (fun p => p.2.2.1)).sum,
        (g.map (fun p => p.2.2.2)).sum⟩)

/-- The comparison used by `sort_values('Total Sales', ...)`. -/
def totalLE (a b : SummaryRow) : Prop := a.total ≤ b.total

instance : DecidableRel totalLE := fun a b => inferInstanceAs (Decidable (a.total ≤ b.total))

/-- `sort_values('Total Sales', ascending=False)`.  pandas computes a
descending sort as the reverse of an ascending stable argsort of the
reversed values (`nargsort`), which preserves the original relative order
of tied values; numpy's quicksort runs a stable insertion sort on arrays
below its partition threshold, which covers the group counts that occur
here, so the underlying ascending sort is modeled as a stable insertion
sort. -/
def sort_values_desc (l : List SummaryRow) : List SummaryRow :=
  (List.insertionSort totalLE l.reverse).reverse

/-- The frame after `df['__sales_consumer'] = df[total_col].apply(parse_money)`,
where `cons` is the list of parsed consumer amounts. -/
def stage1 (t : Table) (cons : List ℚ) : Table :=
  setCol t "__sales_consumer" (cons.map Cell.num)

/-- The frame after `df['__sales_b2b'] = ...`, where `b2b` is the list of
parsed B2B amounts (or all zeros when the B2B column is absent). -/
def stage2 (t : Table) (cons b2b : List ℚ) : Table :=
  setCol (stage1 t cons) "__sales_b2b" (b2b.map Cell.num)

/-- The frame after `df['__sales_total'] = df['__sales_consumer'] +
df['__sales_b2b']`: the columns read back are exactly the lists just
assigned, so the row-wise total column is `zipWith (+) cons b2b`. -/
def stage3 (t : Table) (cons b2b : List ℚ) : Table :=
  setCol (stage2 t cons b2b) "__sales_total" ((List.zipWith (· + ·) cons b2b).map Cell.num)

/-- `df['SKU'].apply(detect_brand)` read from the mutated frame (the
source wraps each cell in `str(...)` inside `detect_brand`). -/
def brandsOf (t : Table) (cons b2b : List ℚ) : List String :=
  (column (stage3 t cons b2b) "SKU").map (fun c => detect_brand (pyStr c))

/-- The frame after `df['Brand'] = df['SKU'].apply(detect_brand)`. -/
def stage4 (t : Table) (cons b2b : List ℚ) : Table :=
  setCol (stage3 t cons b2b) "Brand" ((brandsOf t cons b2b).map Cell.str)

/-- The per-row data the `groupby` works on: brand, consumer amount, B2B
amount and row-wise total, read off the mutated frame's derived columns
(which hold exactly the lists assigned in stages 1-3). -/
def quadsOf (t : Table) (cons b2b : List ℚ) : List (String × ℚ × ℚ × ℚ) :=
  List.zip (brandsOf t cons b2b) (List.zip cons (List.zip b2b (List.zipWith (· + ·) cons b2b)))

/-- `aggregate_sales(df)`: resolve the two monetary columns, assign the
normalized per-row amounts and totals as new columns of `df` (in-place
mutation of the caller's frame, returned here as the first component),
classify every SKU, then group by brand, sum, and sort.  The pandas
expression `df['SKU']` raises `KeyError('SKU')` when the column is absent;
every other exception propagates from the step that raised it.  The
source's truthiness test `if b2b_col:` coincides with the `Option` match
here because a column name matched by the B2B regex is never the empty
string. -/
def aggregate_sales (t : Table) : Except SalesError (Table × List SummaryRow) :=
  match find_sales_columns t with
  | .error e => .error e
  | .ok (total_col, b2b_col) =>
    match seriesApply (column t total_col) with
    | .error e => .error e
    | .ok cons =>
      match (match b2b_col with
             | some cb => seriesApply (column (stage1 t cons) cb)
             | none => .ok ((stage1 t cons).rows.map (fun _ => (0 : ℚ)))) with
      | .error e => .error e
      | .ok b2b =>
        if "SKU" ∈ (stage3 t cons b2b).cols then
          .ok (stage4 t cons b2b, sort_values_desc (groupSummary (quadsOf t cons b2b)))
        else .error (.missingField "SKU")

/-- The spec-side quantity of the conservation claim: the per-row
normalized totals of the input, `parse_money(consumer) +
parse_money(b2b)` for every row (zero for B2B when the B2B column is
absent), read directly off the un-mutated input table. -/
def inputRowTotals (t : Table) : Except SalesError (List ℚ) :=
  match find_sales_columns t with
  | .error e => .error e
  | .ok (total_col, b2b_col) =>
    match seriesApply (column t total_col) with
    | .error e => .error e
    | .ok cons =>
      match (match b2b_col with
             | some cb => seriesApply (column t cb)
             | none => .ok (t.rows.map (fun _ => (0 : ℚ)))) with
      | .error e => .error e
      | .ok b2b => .ok (List.zipWith (· + ·) cons b2b)

/-! ### Structural lemmas about the header scan -/

theorem findStep_fst (acc : Option String × Option String) (c : String) :
    (findStep acc c).1 =
      if normName c = "ordered product sales" then some c else acc.1 := by
  by_cases h1 : normName c = "ordered product sales"
  · have hb : b2bMatch "ordered product sales" = false := by decide
    simp [findStep, h1, hb]
  · by_cases h2 : b2bMatch (normName c) <;> simp [findStep, h1, h2]

theorem findStep_snd (acc : Option String × Option String) (c : String) :
    (findStep acc c).2 = if b2bMatch (normName c) then some c else acc.2 := by
  by_cases h1 : normName c = "ordered product sales"
  · have hb : b2bMatch "ordered product sales" = false := by decide
    simp [findStep, h1, hb]
  · by_cases h2 : b2bMatch (normName c) <;> simp [findStep, h1, h2]

theorem find_sales_columns_eq (t : Table) :
    find_sales_columns t =
      match (t.cols.foldl findStep (none, none)).1 with
      | none => .error (.missingColumn "Couldn't find 'Ordered Product Sales' column.")
      | some c => .ok (c, (t.cols.foldl findStep (none, none)).2) := rfl

theorem foldl_findStep_fst_none_iff (cols : List String)
    (acc : Option String × Option String) :
    (cols.foldl findStep acc).1 = none ↔
      acc.1 = none ∧ ∀ c ∈ cols, normName c ≠ "ordered product sales" := by
  induction cols generalizing acc with
  | nil => simp
  | cons c cs ih =>
    rw [List.foldl_cons, ih, findStep_fst]
    by_cases hc : normName c = "ordered product sales" <;> simp [hc]

theorem foldl_findStep_snd_none_iff (cols : List String)
    (acc : Option String × Option String) :
    (cols.foldl findStep acc).2 = none ↔
      acc.2 = none ∧ ∀ c ∈ cols, b2bMatch (normName c) = false := by
  induction cols generalizing acc with
  | nil => simp
  | cons c cs ih =>
    rw [List.foldl_cons, ih, findStep_snd]
    by_cases hc : b2bMatch (normName c) <;> simp [hc]

theorem foldl_findStep_snd_some (cols : List String)
    (acc : Option String × Option String) (cb : String)
    (h : (cols.foldl findStep acc).2 = some cb) :
    b2bMatch (normName cb) = true ∨ acc.2 = some cb := by
  induction cols generalizing acc with
  | nil => exact Or.inr h
  | cons c cs ih =>
    rw [List.foldl_cons] at h
    rcases ih _ h with h' | h'
    · exact Or.inl h'
    · rw [findStep_snd] at h'
      by_cases hc : b2bMatch (normName c)
      · rw [if_pos hc] at h'
        cases h'
        exact Or.inl hc
      · rw [if_neg hc] at h'
        exact Or.inr h'

/-- A missing consumer column means `find_sales_columns` raises the
`ValueError` of the source, and conversely. -/
theorem find_sales_columns_error_iff (t : Table) :
    (∀ c ∈ t.cols, normName c ≠ "ordered product sales") ↔
      find_sales_columns t =
        .error (.missingColumn "Couldn't find 'Ordered Product Sales' column.") := by
  rw [find_sales_columns_eq]
  constructor
  · intro h
    have hn : (t.cols.foldl findStep (none, none)).1 = none :=
      (foldl_findStep_fst_none_iff t.cols (none, none)).mpr ⟨rfl, h⟩
    rw [hn]
  · intro h
    rcases hr : (t.cols.foldl findStep (none, none)).1 with _ | c
    · exact ((foldl_findStep_fst_none_iff t.cols (none, none)).mp hr).2
    · rw [hr] at h
      simp at h

theorem find_sales_columns_ok_b2b (t : Table) (tc : String) (cb : String)
    (h : find_sales_columns t = .ok (tc, some cb)) :
    b2bMatch (normName cb) = true := by
  rw [find_sales_columns_eq] at h
  rcases hr : (t.cols.foldl findStep (none, none)).1 with _ | c
  · rw [hr] at h; simp at h
  · rw [hr] at h
    simp only [Except.ok.injEq, Prod.mk.injEq] at h
    rcases foldl_findStep_snd_some t.cols (none, none) cb (h.2 ▸ rfl) with h' | h'
    · exact h'
    · simp at h'

theorem find_sales_columns_ok_of_mem (t : Table)
    (hc : ∃ c ∈ t.cols, normName c = "ordered product sales") :
    ∃ tc b, find_sales_columns t = .ok (tc, b) := by
  rw [find_sales_columns_eq]
  rcases hr : (t.cols.foldl findStep (none, none)).1 with _ | c
  · obtain ⟨c, hmem, hname⟩ := hc
    exact absurd hname (((foldl_findStep_fst_none_iff t.cols (none, none)).mp hr).2 c hmem)
  · exact ⟨c, _, rfl⟩

theorem find_sales_columns_no_b2b (t : Table)
    (hb : ∀ c ∈ t.cols, b2bMatch (normName c) = false)
    (tc : String) (b : Option String)
    (h : find_sales_columns t = .ok (tc, b)) : b = none := by
  rw [find_sales_columns_eq] at h
  have hsnd : (t.cols.foldl findStep (none, none)).2 = none :=
    (foldl_findStep_snd_none_iff t.cols (none, none)).mpr ⟨rfl, hb⟩
  rcases hr : (t.cols.foldl findStep (none, none)).1 with _ | c
  · rw [hr] at h; simp at h
  · rw [hr] at h
    simp only [Except.ok.injEq, Prod.mk.injEq] at h
    rw [← h.2, hsnd]

/-! ### Structural lemmas about tables and columns -/

theorem length_column (t : Table) (c : String) :
    (column t c).length = t.rows.length := by
  simp [column]

theorem seriesApply_length : ∀ (l : List Cell) (l' : List ℚ),
    seriesApply l = .ok l' → l'.length = l.length := by
  intro l
  induction l with
  | nil => intro l' h; simp [seriesApply] at h; simp [← h]
  | cons c rest ih =>
    intro l' h
    unfold seriesApply at h
    rcases hp : parse_money c with e | q <;> rw [hp] at h
    · exact absurd h (by simp)
    · rcases hs : seriesApply rest with e | qs <;> rw [hs] at h
      · exact absurd h (by simp)
      · cases h
        simp [ih qs hs]

theorem find?_setInRow_ne (r : List (String × Cell)) (n : String) (v : Cell)
    (c : String) (h : c ≠ n) :
    (setInRow r n v).find? (fun p => p.1 == c) = r.find? (fun p => p.1 == c) := by
  induction r with
  | nil =>
    have hnc : (n == c) = false := beq_eq_false_iff_ne.mpr (Ne.symm h)
    simp [setInRow, List.find?, hnc]
  | cons kw rest ih =>
    obtain ⟨k, w⟩ := kw
    by_cases hk : k = n
    · have hnc : (n == c) = false := beq_eq_false_iff_ne.mpr (Ne.symm h)
      have hkc : (k == c) = false := by rw [hk]; exact hnc
      simp [setInRow, hk, List.find?, hnc, hkc]
    · by_cases hkc : (k == c) = true
      · simp [setInRow, hk, List.find?, hkc]
      · have hkc' : (k == c) = false := by simpa using hkc
        simp [setInRow, hk, List.find?, hkc', ih]

theorem column_setCol_ne (t : Table) (n : String) (vals : List Cell) (c : String)
    (h : c ≠ n) (hlen : vals.length = t.rows.length) :
    column (setCol t n vals) c = column t c := by
  simp only [column, setCol]
  have : ∀ (rows : List (List (String × Cell))) (vs : List Cell),
      vs.length = rows.length →
      (List.zipWith (fun r v => setInRow r n v) rows vs).map
          (fun r => ((r.find? (fun p => p.1 == c)).map Prod.snd).getD Cell.null) =
        rows.map (fun r => ((r.find? (fun p => p.1 == c)).map Prod.snd).getD Cell.null) := by
    intro rows
    induction rows with
    | nil => intro vs _; simp
    | cons r rs ih =>
      intro vs hvs
      cases vs with
      | nil => simp at hvs
      | cons v vs' =>
        simp only [List.zipWith_cons_cons, List.map_cons, find?_setInRow_ne r n v c h]
        rw [ih vs' (by simpa using hvs)]
  exact this t.rows vals hlen

theorem setCol_cols_mem (t : Table) (n : String) (vals : List Cell) (c : String) :
    c ∈ (setCol t n vals).cols ↔ c ∈ t.cols ∨ c = n := by
  simp only [setCol]
  by_cases hn : n ∈ t.cols
  · rw [if_pos hn]
    constructor
    · exact Or.inl
    · rintro (h | rfl) <;> assumption
  · rw [if_neg hn]
    simp [List.mem_append]

theorem setCol_cols_fresh (t : Table) (n : String) (vals : List Cell)
    (h : n ∉ t.cols) : (setCol t n vals).cols = t.cols ++ [n] := by
  simp [setCol, h]

theorem setCol_rows_length (t : Table) (n : String) (vals : List Cell)
    (h : vals.length = t.rows.length) :
    (setCol t n vals).rows.length = t.rows.length := by
  simp [setCol, h]

/-- Anatomy of a successful aggregation: the resolved columns, the two
parsed amount lists, the presence of the SKU column, and the shape of the
returned frame and summary. -/
theorem aggregate_ok_elim {t t' : Table} {S : List SummaryRow}
    (h : aggregate_sales t = .ok (t', S)) :
    ∃ tc b cons b2b,
      find_sales_columns t = .ok (tc, b) ∧
      seriesApply (column t tc) = .ok cons ∧
      (∀ cb, b = some cb → seriesApply (column (stage1 t cons) cb) = .ok b2b) ∧
      (b = none → b2b = (stage1 t cons).rows.map (fun _ => (0 : ℚ))) ∧
      "SKU" ∈ (stage3 t cons b2b).cols ∧
      t' = stage4 t cons b2b ∧
      S = sort_values_desc (groupSummary (quadsOf t cons b2b)) := by
  unfold aggregate_sales at h
  rcases hf : find_sales_columns t with e | ⟨tc, b⟩ <;> rw [hf] at h <;> dsimp only at h
  · simp at h
  · rcases hc : seriesApply (column t tc) with e | cons <;> rw [hc] at h <;> dsimp only at h
    · simp at h
    · rcases b with _ | cb
      · dsimp only at h
        by_cases hS : "SKU" ∈ (stage3 t cons ((stage1 t cons).rows.map (fun _ => (0 : ℚ)))).cols
        · rw [if_pos hS] at h
          simp only [Except.ok.injEq, Prod.mk.injEq] at h
          exact ⟨tc, none, cons, _, rfl, hc, (fun cb h' => nomatch h'), fun _ => rfl, hS,
            h.1.symm, h.2.symm⟩
        · rw [if_neg hS] at h
          simp at h
      · dsimp only at h
        rcases hb : seriesApply (column (stage1 t cons) cb) with e | b2b <;> rw [hb] at h <;>
          dsimp only at h
        · simp at h
        · by_cases hS : "SKU" ∈ (stage3 t cons b2b).cols
          · rw [if_pos hS] at h
            simp only [Except.ok.injEq, Prod.mk.injEq] at h
            refine ⟨tc, some cb, cons, b2b, rfl, hc, ?_, (fun h' => nomatch h'), hS,
              h.1.symm, h.2.symm⟩
            intro cb' h'
            cases h'
            exact hb
          · rw [if_neg hS] at h
            simp at h

/-- Membership in the columns of the thrice-extended frame. -/
theorem stage3_cols_mem (t : Table) (cons b2b : List ℚ) (c : String) :
    c ∈ (stage3 t cons b2b).cols ↔
      c ∈ t.cols ∨ c = "__sales_consumer" ∨ c = "__sales_b2b" ∨ c = "__sales_total" := by
  simp [stage3, stage2, stage1, setCol_cols_mem, or_assoc]

/-! ### Sample input used by the witnesses -/

/-- A one-row report: SKU `TH_1`, consumer sales `€5.00`, no B2B column. -/
def sampleTable : Table :=
  ⟨["SKU", "Ordered Product Sales"],
   [[("SKU", .str "TH_1"), ("Ordered Product Sales", .str "€5.00")]]⟩

/-- The caller's frame after `aggregate_sales` ran on `sampleTable`. -/
def samplePost : Table :=
  ⟨["SKU", "Ordered Product Sales", "__sales_consumer", "__sales_b2b", "__sales_total", "Brand"],
   [[("SKU", .str "TH_1"), ("Ordered Product Sales", .str "€5.00"),
     ("__sales_consumer", .num 5), ("__sales_b2b", .num 0),
     ("__sales_total", .num 5), ("Brand", .str "Theonia EU")]]⟩

/-- The summary returned for `sampleTable`. -/
def sampleSummary : List SummaryRow := [⟨"Theonia EU", 5, 0, 5⟩]

theorem aggregate_sample :
    aggregate_sales sampleTable = .ok (samplePost, sampleSummary) := by decide!

/-! ### Claims C7, C8 and C10 -/

/-- C7: whenever no column of the input has trimmed, lowercased name
`ordered product sales`, column resolution fails with the missing-column
error naming the expected column (the `ValueError` of the source, the
spec's `MissingColumnError`), and `aggregate_sales` propagates exactly
that error to its caller, producing no summary. -/
theorem claim_C7 (t : Table)
    (h : ∀ c ∈ t.cols, normName c ≠ "ordered product sales") :
    find_sales_columns t =
        .error (.missingColumn "Couldn't find 'Ordered Product Sales' column.") ∧
      aggregate_sales t =
        .error (.missingColumn "Couldn't find 'Ordered Product Sales' column.") := by
  have hf := (find_sales_columns_error_iff t).mp h
  refine ⟨hf, ?_⟩
  unfold aggregate_sales
  rw [hf]

theorem claim_C7_witness :
    find_sales_columns ⟨["Foo"], []⟩ =
        .error (.missingColumn "Couldn't find 'Ordered Product Sales' column.") ∧
      aggregate_sales ⟨["Foo"], []⟩ =
        .error (.missingColumn "Couldn't find 'Ordered Product Sales' column.") :=
  claim_C7 ⟨["Foo"], []⟩ (by decide)

/-- C8 counterexample: a table whose schema has no `SKU` column (and also
no consumer-sales column) makes `aggregate_sales` fail with the
missing-column `ValueError` of `find_sales_columns`, not with the
missing-SKU `KeyError` (the spec's `MissingFieldError`), because column
resolution runs first.  This refutes the claim as universally stated. -/
theorem claim_C8_counterexample :
    "SKU" ∉ (Table.mk ["Foo"] []).cols ∧
      aggregate_sales ⟨["Foo"], []⟩ =
        .error (.missingColumn "Couldn't find 'Ordered Product Sales' column.") ∧
      aggregate_sales ⟨["Foo"], []⟩ ≠ .error (.missingField "SKU") := by
  refine ⟨by decide, rfl, ?_⟩
  intro hcontra
  rw [show aggregate_sales ⟨["Foo"], []⟩ =
      .error (.missingColumn "Couldn't find 'Ordered Product Sales' column.") from rfl] at hcontra
  simp at hcontra

/-- C8 (amended): on a table whose schema has no `SKU` column, once column
resolution has succeeded and every monetary cell has parsed, the pandas
access `df['SKU']` aborts the aggregation with the missing-SKU error (the
`KeyError` modeled by `missingField`, the spec's `MissingFieldError`): no
summary is produced and no row is ever classified as `Other`. -/
theorem claim_C8 (t : Table) (hSKU : "SKU" ∉ t.cols)
    (tc : String) (b : Option String)
    (hf : find_sales_columns t = .ok (tc, b))
    (cons : List ℚ) (hc : seriesApply (column t tc) = .ok cons)
    (hb : ∀ cb, b = some cb → ∃ l, seriesApply (column (stage1 t cons) cb) = .ok l) :
    aggregate_sales t = .error (.missingField "SKU") := by
  have hSKU3 : ∀ b2b : List ℚ, "SKU" ∉ (stage3 t cons b2b).cols := by
    intro b2b hmem
    rcases (stage3_cols_mem t cons b2b "SKU").mp hmem with hm | hm | hm | hm
    · exact hSKU hm
    · exact absurd hm (by decide)
    · exact absurd hm (by decide)
    · exact absurd hm (by decide)
  unfold aggregate_sales
  rw [hf]
  dsimp only
  rw [hc]
  dsimp only
  rcases b with _ | cb
  · dsimp only
    rw [if_neg (hSKU3 _)]
  · dsimp only
    obtain ⟨l, hl⟩ := hb cb rfl
    rw [hl]
    dsimp only
    rw [if_neg (hSKU3 _)]

theorem claim_C8_witness :
    aggregate_sales ⟨["Ordered Product Sales"], [[("Ordered Product Sales", Cell.str "5")]]⟩ =
      .error (.missingField "SKU") :=
  claim_C8 ⟨["Ordered Product Sales"], [[("Ordered Product Sales", Cell.str "5")]]⟩
    (by decide) "Ordered Product Sales" none rfl [5] rfl (fun cb h => nomatch h)

/-- C10: `aggregate_sales` mutates the caller's frame in place.  For an
input whose schema does not already contain the derived column names, a
successful call leaves the caller's table with the columns
`__sales_consumer`, `__sales_b2b`, `__sales_total` and `Brand` appended
after its original columns, so the input frame is not left unchanged. -/
theorem claim_C10 (t t' : Table) (S : List SummaryRow)
    (h1 : "__sales_consumer" ∉ t.cols) (h2 : "__sales_b2b" ∉ t.cols)
    (h3 : "__sales_total" ∉ t.cols) (h4 : "Brand" ∉ t.cols)
    (h : aggregate_sales t = .ok (t', S)) :
    t'.cols = t.cols ++ ["__sales_consumer", "__sales_b2b", "__sales_total", "Brand"] ∧
      t'.cols ≠ t.cols := by
  obtain ⟨tc, b, cons, b2b, hf, hc, hbs, hbn, hS, ht', hSdef⟩ := aggregate_ok_elim h
  have e1 : (stage1 t cons).cols = t.cols ++ ["__sales_consumer"] :=
    setCol_cols_fresh _ _ _ h1
  have m2 : "__sales_b2b" ∉ (stage1 t cons).cols := by
    rw [e1]
    intro hmem
    rcases List.mem_append.mp hmem with hm | hm
    · exact h2 hm
    · simp at hm
  have e2 : (stage2 t cons b2b).cols = t.cols ++ ["__sales_consumer"] ++ ["__sales_b2b"] := by
    rw [stage2, setCol_cols_fresh _ _ _ m2, e1]
  have m3 : "__sales_total" ∉ (stage2 t cons b2b).cols := by
    rw [e2]
    intro hmem
    rcases List.mem_append.mp hmem with hm | hm
    · rcases List.mem_append.mp hm with hm' | hm'
      · exact h3 hm'
      · simp at hm'
    · simp at hm
  have e3 : (stage3 t cons b2b).cols =
      t.cols ++ ["__sales_consumer"] ++ ["__sales_b2b"] ++ ["__sales_total"] := by
    rw [stage3, setCol_cols_fresh _ _ _ m3, e2]
  have m4 : "Brand" ∉ (stage3 t cons b2b).cols := by
    rw [e3]
    intro hmem
    rcases List.mem_append.mp hmem with hm | hm
    · rcases List.mem_append.mp hm with hm' | hm'
      · rcases List.mem_append.mp hm' with hm'' | hm''
        · exact h4 hm''
        · simp at hm''
      · simp at hm'
    · simp at hm
  have e4 : t'.cols =
      t.cols ++ ["__sales_consumer"] ++ ["__sales_b2b"] ++ ["__sales_total"] ++ ["Brand"] := by
    rw [ht', stage4, setCol_cols_fresh _ _ _ m4, e3]
  constructor
  · rw [e4]
    simp [List.append_assoc]
  · rw [e4]
    intro hEq
    have hlen := congrArg List.length hEq
    simp at hlen

theorem claim_C10_witness :
    samplePost.cols =
        sampleTable.cols ++ ["__sales_consumer", "__sales_b2b", "__sales_total", "Brand"] ∧
      samplePost.cols ≠ sampleTable.cols :=
  claim_C10 sampleTable samplePost sampleSummary
    (by decide) (by decide) (by decide) (by decide) aggregate_sample

/-! ### Claim C9 -/

/-- Every summary row's three amounts are the per-brand sums of the rows
with that brand. -/
theorem mem_groupSummary {l : List (String × ℚ × ℚ × ℚ)} {r : SummaryRow}
    (h : r ∈ groupSummary l) :
    r.consumer = ((l.filter (fun p => p.1 == r.brand)).map (fun p => p.2.1)).sum ∧
      r.b2b = ((l.filter (fun p => p.1 == r.brand)).map (fun p => p.2.2.1)).sum ∧
      r.total = ((l.filter (fun p => p.1 == r.brand)).map (fun p => p.2.2.2)).sum := by
  unfold groupSummary at h
  obtain ⟨k, _, hr⟩ := List.mem_map.mp h
  subst hr
  exact ⟨rfl, rfl, rfl⟩

/-- Membership in a sorted summary is membership in the grouped summary:
`sort_values` only permutes the rows. -/
theorem mem_sort_values_desc {l : List SummaryRow} {r : SummaryRow} :
    r ∈ sort_values_desc l ↔ r ∈ l := by
  unfold sort_values_desc
  rw [List.mem_reverse, List.mem_insertionSort, List.mem_reverse]

/-- Shape of the per-row quadruples when the B2B amounts are all zero: the
B2B component is zero and the row-wise total equals the consumer
component. -/
theorem zip_quad_elem : ∀ (a : List String) (b z : List ℚ) (p : String × ℚ × ℚ × ℚ),
    (∀ x ∈ z, x = 0) →
    p ∈ List.zip a (List.zip b (List.zip z (List.zipWith (· + ·) b z))) →
    p.2.2.1 = 0 ∧ p.2.2.2 = p.2.1 := by
  intro a
  induction a with
  | nil => intro b z p _ hp; simp at hp
  | cons x a' ih =>
    intro b z p hz hp
    cases b with
    | nil => simp at hp
    | cons b0 b' =>
      cases z with
      | nil => simp at hp
      | cons z0 z' =>
        simp only [List.zipWith_cons_cons, List.zip_cons_cons, List.mem_cons] at hp
        rcases hp with rfl | hp
        · have hz0 : z0 = 0 := hz z0 (List.mem_cons_self _ _)
          subst hz0
          exact ⟨rfl, by simp⟩
        · exact ih b' z' p (fun x hx => hz x (List.mem_cons_of_mem _ hx)) hp

/-- C9: for a table with a consumer-sales column whose header has no
column matching the B2B pattern, column resolution succeeds and returns
the explicit absent marker `none` for the B2B column (it does not raise),
and in any summary the aggregation then produces, every row's B2B Sales is
`0.0` and its Total Sales equals its Consumer Sales. -/
theorem claim_C9 (t : Table)
    (hb : ∀ c ∈ t.cols, b2bMatch (normName c) = false)
    (hc : ∃ c ∈ t.cols, normName c = "ordered product sales") :
    (∃ tc, find_sales_columns t = .ok (tc, none)) ∧
      ∀ t' S, aggregate_sales t = .ok (t', S) →
        ∀ r ∈ S, r.b2b = 0 ∧ r.total = r.consumer := by
  obtain ⟨tc, b, hf⟩ := find_sales_columns_ok_of_mem t hc
  have hbnone : b = none := find_sales_columns_no_b2b t hb tc b hf
  subst hbnone
  refine ⟨⟨tc, hf⟩, ?_⟩
  intro t' S hagg r hr
  obtain ⟨tc', b', cons, b2b, hf', hc', hbs, hbn, hSmem, ht', hSdef⟩ := aggregate_ok_elim hagg
  rw [hf] at hf'
  have hpair : (tc, (none : Option String)) = (tc', b') := by
    injection hf'
  obtain ⟨rfl, hb'⟩ := Prod.mk.injEq .. ▸ hpair
  have hz : ∀ x ∈ b2b, x = 0 := by
    rw [hbn hb'.symm]
    intro x hx
    obtain ⟨_, _, hx0⟩ := List.mem_map.mp hx
    exact hx0.symm
  subst hSdef
  have hrG : r ∈ groupSummary (quadsOf t cons b2b) := mem_sort_values_desc.mp hr
  obtain ⟨hcon, hb2b, htot⟩ := mem_groupSummary hrG
  constructor
  · rw [hb2b]
    apply List.sum_eq_zero
    intro x hx
    obtain ⟨p, hp, hpx⟩ := List.mem_map.mp hx
    have hpq : p ∈ quadsOf t cons b2b := (List.mem_filter.mp hp).1
    rw [← hpx]
    exact (zip_quad_elem _ _ _ p hz hpq).1
  · rw [htot, hcon]
    apply congrArg List.sum
    apply List.map_congr_left
    intro p hp
    have hpq : p ∈ quadsOf t cons b2b := (List.mem_filter.mp hp).1
    exact (zip_quad_elem _ _ _ p hz hpq).2

theorem claim_C9_witness :
    (⟨"Theonia EU", 5, 0, 5⟩ : SummaryRow).b2b = 0 ∧
      (⟨"Theonia EU", 5, 0, 5⟩ : SummaryRow).total =
        (⟨"Theonia EU", 5, 0, 5⟩ : SummaryRow).consumer :=
  (claim_C9 sampleTable (by decide) (by decide)).2 samplePost sampleSummary
    aggregate_sample ⟨"Theonia EU", 5, 0, 5⟩ (by decide)

/-! ### Claim C5 -/

/-- When no rule's pattern matches, the loop falls through to `Other`. -/
theorem detectLoop_no_match : ∀ (rules : List (String × String)) (s : String),
    (∀ r ∈ rules, r.1.data.isPrefixOf s.data = false) → detectLoop rules s = "Other" := by
  intro rules
  induction rules with
  | nil => intro s _; rfl
  | cons r rest ih =>
    intro s h
    obtain ⟨pat, brand⟩ := r
    have h0 : pat.data.isPrefixOf s.data = false := h (pat, brand) (List.mem_cons_self _ _)
    simp only [detectLoop, h0]
    exact ih s (fun r' hr' => h r' (List.mem_cons_of_mem _ hr'))

/-- The loop returns the label of the first matching rule. -/
theorem detectLoop_first_match : ∀ (rules : List (String × String)) (s : String)
    (i : ℕ) (hi : i < rules.length),
    (rules.get ⟨i, hi⟩).1.data.isPrefixOf s.data = true →
    (∀ j (hj : j < i), (rules.get ⟨j, Nat.lt_trans hj hi⟩).1.data.isPrefixOf s.data = false) →
    detectLoop rules s = (rules.get ⟨i, hi⟩).2 := by
  intro rules
  induction rules with
  | nil => intro s i hi; exact absurd hi (by simp)
  | cons r rest ih =>
    intro s i hi hmatch hbefore
    obtain ⟨pat, brand⟩ := r
    cases i with
    | zero =>
      simp only [List.get] at hmatch ⊢
      simp [detectLoop, hmatch]
    | succ i' =>
      have h0 : pat.data.isPrefixOf s.data = false := hbefore 0 (Nat.succ_pos i')
      simp only [List.get] at h0 hmatch ⊢
      simp only [detectLoop, h0]
      exact ih s i' (Nat.lt_of_succ_lt_succ hi) hmatch
        (fun j hj => hbefore (j + 1) (Nat.succ_lt_succ hj))

/-- C5: `detect_brand` walks the ordered `BRAND_MAP` rules with
case-sensitive matching anchored at the start of the SKU and returns the
label of the first matching rule, or the literal fallback `Other` when no
rule matches; in particular the four sample SKUs classify as the spec
says, and a SKU matching several rules gets the earliest matching rule's
label. -/
theorem claim_C5 :
    detect_brand "TH_001" = "Theonia EU" ∧
      detect_brand "EU-PG-55" = "PupGrade EU" ∧
      detect_brand "EU-PC-B-9" = "Cosy House EU" ∧
      detect_brand "XYZ" = "Other" ∧
      (∀ s : String, (∀ r ∈ BRAND_MAP, r.1.data.isPrefixOf s.data = false) →
        detect_brand s = "Other") ∧
      (∀ (s : String) (i : ℕ) (hi : i < BRAND_MAP.length),
        (BRAND_MAP.get ⟨i, hi⟩).1.data.isPrefixOf s.data = true →
        (∀ j (hj : j < i), (BRAND_MAP.get ⟨j, Nat.lt_trans hj hi⟩).1.data.isPrefixOf s.data = false) →
        detect_brand s = (BRAND_MAP.get ⟨i, hi⟩).2) :=
  ⟨by decide, by decide, by decide, by decide,
    fun s h => detectLoop_no_match BRAND_MAP s h,
    fun s i hi hm hb => detectLoop_first_match BRAND_MAP s i hi hm hb⟩

theorem claim_C5_witness : detect_brand "EU-PC-B-9" = "Cosy House EU" :=
  claim_C5.2.2.2.2.2 "EU-PC-B-9" 2 (by decide) (by decide) (by decide)

/-! ### Claim C6 -/

/-- C6: the case-wise contract of `parse_money`: a missing value gives
`0.0`, an already-numeric value is returned as a float with its sign
preserved, and a string is stripped to digits-and-dots and parsed by
`float()` (with `0.0` for an empty remainder); in particular the five spec
examples hold. -/
theorem claim_C6 :
    parse_money (Cell.str "€1,234.56") = .ok (1234.56 : ℚ) ∧
      parse_money (Cell.str "$0.00") = .ok 0 ∧
      parse_money Cell.null = .ok 0 ∧
      parse_money (Cell.num 42) = .ok 42 ∧
      parse_money (Cell.str "") = .ok 0 ∧
      (∀ q : ℚ, parse_money (Cell.num q) = .ok q) ∧
      (∀ s : String, parse_money (Cell.str s) =
        if (cleanMoney s).isEmpty then .ok 0 else pyFloat (cleanMoney s)) :=
  ⟨by decide!, by decide!, rfl, rfl, rfl, fun q => rfl, fun s => rfl⟩

/-! ### Claim C4 -/

/-- C4 counterexample: a cell whose stripped remainder is the single
character `.` is malformed but nonempty, and `float(".")` raises
`ValueError` — `parse_money` is not total and does not normalize this
malformed cell to `0.0`. -/
theorem claim_C4_counterexample :
    parse_money (Cell.str ".") = .error (.valueError ".") := rfl

theorem pyFloat_dropWhile_nil {cs : List Char} (h : cs.dropWhile Char.isDigit = []) :
    pyFloat cs =
      if (cs.takeWhile Char.isDigit).isEmpty then .error (.valueError (String.mk cs))
      else .ok (natOfDigits (cs.takeWhile Char.isDigit)) := by
  simp only [pyFloat]
  rw [h]

theorem pyFloat_dropWhile_dot {cs frac : List Char}
    (h : cs.dropWhile Char.isDigit = '.' :: frac) :
    pyFloat cs =
      if frac.all Char.isDigit && !((cs.takeWhile Char.isDigit).isEmpty && frac.isEmpty) then
        .ok ((natOfDigits (cs.takeWhile Char.isDigit) : ℚ) +
          (natOfDigits frac : ℚ) / 10 ^ frac.length)
      else .error (.valueError (String.mk cs)) := by
  simp only [pyFloat]
  rw [h]
  rfl

theorem dropWhile_head_not {p : Char → Bool} : ∀ (l : List Char) (d : Char) (rest : List Char),
    l.dropWhile p = d :: rest → p d = false := by
  intro l
  induction l with
  | nil => intro d rest h; simp at h
  | cons c l' ih =>
    intro d rest h
    by_cases hc : p c
    · rw [List.dropWhile_cons_of_pos hc] at h
      exact ih d rest h
    · rw [List.dropWhile_cons_of_neg hc] at h
      cases h
      simpa using hc

theorem count_dot_eq_zero_iff {cs : List Char}
    (hclean : ∀ c ∈ cs, c.isDigit = true ∨ c = '.') :
    cs.count '.' = 0 ↔ cs.all Char.isDigit = true := by
  rw [List.count_eq_zero, List.all_eq_true]
  constructor
  · intro hdot c hcmem
    rcases hclean c hcmem with h | h
    · exact h
    · exact absurd (h ▸ hcmem) hdot
  · intro hall hdot
    exact absurd (hall '.' hdot) (by decide)

/-- Characterization of when `float()` succeeds on a stripped remainder:
iff the remainder has at most one dot and at least one digit. -/
theorem pyFloat_ok_iff {cs : List Char}
    (hclean : ∀ c ∈ cs, c.isDigit = true ∨ c = '.') (hne : cs ≠ []) :
    (∃ q, pyFloat cs = .ok q) ↔
      (cs.count '.' ≤ 1 ∧ cs.any Char.isDigit = true) := by
  have hsplit : cs.takeWhile Char.isDigit ++ cs.dropWhile Char.isDigit = cs :=
    List.takeWhile_append_dropWhile _ _
  have hipdig : ∀ c ∈ cs.takeWhile Char.isDigit, c.isDigit = true :=
    fun c hc => List.mem_takeWhile_imp hc
  rcases hdp : cs.dropWhile Char.isDigit with _ | ⟨d, frac⟩
  · rw [pyFloat_dropWhile_nil hdp]
    rw [hdp] at hsplit
    rw [List.append_nil] at hsplit
    have hipne : (cs.takeWhile Char.isDigit).isEmpty = false := by
      rw [hsplit]
      cases cs with
      | nil => exact absurd rfl hne
      | cons c cs' => rfl
    simp only [hipne, Bool.false_eq_true, if_false]
    refine iff_of_true ⟨_, rfl⟩ ⟨?_, ?_⟩
    · have hdotnot : '.' ∉ cs := by
        intro hdot
        have hd := hipdig '.' (by rw [hsplit]; exact hdot)
        exact absurd hd (by decide)
      rw [List.count_eq_zero.mpr hdotnot]
      exact Nat.zero_le 1
    · rw [List.any_eq_true]
      obtain ⟨c, cs', hx⟩ := List.exists_cons_of_ne_nil hne
      refine ⟨c, by rw [hx]; exact List.mem_cons_self _ _, ?_⟩
      exact hipdig c (by rw [hsplit, hx]; exact List.mem_cons_self _ _)
  · have hd_not : d.isDigit = false := dropWhile_head_not cs d frac hdp
    have hdmem : d ∈ cs := by
      rw [← hsplit, hdp]
      exact List.mem_append_right _ (List.mem_cons_self _ _)
    have hd_dot : d = '.' := by
      rcases hclean d hdmem with h | h
      · rw [h] at hd_not; cases hd_not
      · exact h
    subst hd_dot
    rw [pyFloat_dropWhile_dot hdp]
    have hfracmem : ∀ c ∈ frac, c.isDigit = true ∨ c = '.' := by
      intro c hc
      apply hclean
      rw [← hsplit, hdp]
      exact List.mem_append_right _ (List.mem_cons_of_mem _ hc)
    have hip0 : (cs.takeWhile Char.isDigit).count '.' = 0 := by
      rw [List.count_eq_zero]
      intro hdot
      exact absurd (hipdig '.' hdot) (by decide)
    have hcount : cs.count '.' = 1 + frac.count '.' := by
      conv_lhs => rw [← hsplit, hdp]
      rw [List.count_append, List.count_cons, hip0]
      simp [Nat.add_comm]
    have hany : cs.any Char.isDigit =
        (!(cs.takeWhile Char.isDigit).isEmpty || frac.any Char.isDigit) := by
      conv_lhs => rw [← hsplit, hdp]
      rw [List.any_append, List.any_cons]
      have hdd : Char.isDigit '.' = false := by decide
      rw [hdd]
      rcases hip : (cs.takeWhile Char.isDigit).isEmpty with _ | _
      · have hipne : cs.takeWhile Char.isDigit ≠ [] := by
          intro hnil
          rw [hnil] at hip
          simp at hip
        obtain ⟨c0, ip', hx⟩ := List.exists_cons_of_ne_nil hipne
        have hc0 : c0.isDigit = true :=
          hipdig c0 (by rw [hx]; exact List.mem_cons_self _ _)
        have hipany : (cs.takeWhile Char.isDigit).any Char.isDigit = true := by
          rw [List.any_eq_true]
          exact ⟨c0, by rw [hx]; exact List.mem_cons_self _ _, hc0⟩
        simp [hipany]
      · have hipnil : cs.takeWhile Char.isDigit = [] := List.isEmpty_iff.mp hip
        simp [hipnil]
    constructor
    · rintro ⟨q, hq⟩
      by_cases hcond : (frac.all Char.isDigit &&
          !((cs.takeWhile Char.isDigit).isEmpty && frac.isEmpty)) = true
      · rw [Bool.and_eq_true, Bool.not_eq_true', Bool.and_eq_false_iff] at hcond
        obtain ⟨hall, hnot⟩ := hcond
        constructor
        · rw [hcount]
          have hf0 : frac.count '.' = 0 := (count_dot_eq_zero_iff hfracmem).mpr hall
          omega
        · rw [hany]
          rcases hnot with hip | hfr
          · rw [hip]
            simp
          · have hfne : frac ≠ [] := by
              intro hnil
              rw [hnil] at hfr
              simp at hfr
            obtain ⟨c0, fr', hx⟩ := List.exists_cons_of_ne_nil hfne
            have hc0 : c0.isDigit = true := by
              rw [List.all_eq_true] at hall
              exact hall c0 (by rw [hx]; exact List.mem_cons_self _ _)
            have hfany : frac.any Char.isDigit = true := by
              rw [List.any_eq_true]
              exact ⟨c0, by rw [hx]; exact List.mem_cons_self _ _, hc0⟩
            rw [hfany]
            simp
      · rw [Bool.not_eq_true] at hcond
        rw [hcond] at hq
        simp at hq
    · rintro ⟨hc1, hcany⟩
      have hf0 : frac.count '.' = 0 := by
        rw [hcount] at hc1
        omega
      have hall : frac.all Char.isDigit = true := (count_dot_eq_zero_iff hfracmem).mp hf0
      have hnot : (!((cs.takeWhile Char.isDigit).isEmpty && frac.isEmpty)) = true := by
        rw [Bool.not_eq_true', Bool.and_eq_false_iff]
        rw [hany] at hcany
        rcases Bool.or_eq_true_iff.mp hcany with hip | hfr
        · rw [Bool.not_eq_true'] at hip
          exact Or.inl hip
        · have hfne : frac ≠ [] := by
            intro hnil
            rw [hnil] at hfr
            simp at hfr
          obtain ⟨c0, fr', hx⟩ := List.exists_cons_of_ne_nil hfne
          refine Or.inr ?_
          rw [hx]
          rfl
      have hcondT : (frac.all Char.isDigit &&
          !((cs.takeWhile Char.isDigit).isEmpty && frac.isEmpty)) = true := by
        rw [hall, hnot]
        rfl
      exact ⟨_, if_pos hcondT⟩

/-- C4 (amended): `parse_money` on a string never raises exactly when the
stripped remainder is empty (then it returns `0.0`) or is a well-formed
numeral — at most one period and at least one digit; a nonempty malformed
remainder (such as `"."` or `"1.2.3"`) makes `float()` raise `ValueError`,
so malformed cells are not all silently normalized to `0.0`. -/
theorem claim_C4 (s : String) :
    (∃ q, parse_money (Cell.str s) = .ok q) ↔
      (cleanMoney s = [] ∨
        ((cleanMoney s).count '.' ≤ 1 ∧ (cleanMoney s).any Char.isDigit = true)) := by
  have hclean : ∀ c ∈ cleanMoney s, c.isDigit = true ∨ c = '.' := by
    intro c hc
    have hmf := List.mem_filter.mp hc
    rcases Bool.or_eq_true_iff.mp hmf.2 with h | h
    · exact Or.inl h
    · exact Or.inr (by simpa using h)
  show (∃ q, (if (cleanMoney s).isEmpty then Except.ok 0 else pyFloat (cleanMoney s)) = .ok q) ↔ _
  by_cases hemp : (cleanMoney s).isEmpty = true
  · have hnil : cleanMoney s = [] := List.isEmpty_iff.mp hemp
    rw [if_pos hemp]
    exact iff_of_true ⟨0, rfl⟩ (Or.inl hnil)
  · rw [if_neg hemp]
    have hne : cleanMoney s ≠ [] := by
      intro hnil
      exact hemp (by rw [hnil]; rfl)
    rw [pyFloat_ok_iff hclean hne]
    constructor
    · exact fun h => Or.inr h
    · rintro (h | h)
      · exact absurd h hne
      · exact h

/-! ### Claim C1: conservation of the summed totals -/

theorem sum_map_filter_not {α : Type} (f : α → ℚ) (p : α → Bool) :
    ∀ l : List α,
      ((l.filter p).map f).sum + ((l.filter (fun a => !(p a))).map f).sum = (l.map f).sum := by
  intro l
  induction l with
  | nil => simp
  | cons a l' ih =>
    by_cases ha : p a = true
    · simp only [List.filter_cons, ha, Bool.not_true, if_true, Bool.false_eq_true, if_false,
        List.map_cons, List.sum_cons]
      rw [add_assoc, ih]
    · have ha' : p a = false := by simpa using ha
      simp only [List.filter_cons, ha', Bool.not_false, if_true, Bool.false_eq_true, if_false,
        List.map_cons, List.sum_cons]
      rw [add_left_comm, ih]

/-- Filtering for key `k'` ignores a prior filter that removed key `k`
when the two keys differ. -/
theorem filter_ne_filter_eq {k k' : String} (hkk' : k' ≠ k) :
    ∀ l : List (String × ℚ × ℚ × ℚ),
      (l.filter (fun p => !(p.1 == k))).filter (fun p => p.1 == k') =
        l.filter (fun p => p.1 == k') := by
  intro l
  induction l with
  | nil => rfl
  | cons q l' ihq =>
    by_cases hqk : (q.1 == k) = true
    · have hq1 : q.1 = k := by simpa using hqk
      have hqk' : (q.1 == k') = false := by
        rw [hq1]
        exact beq_eq_false_iff_ne.mpr (fun h => hkk' h.symm)
      simp [List.filter_cons, hqk, hqk', ihq]
    · have hqkf : (q.1 == k) = false := by simpa using hqk
      by_cases hqk' : (q.1 == k') = true
      · simp [List.filter_cons, hqkf, hqk', ihq]
      · have hq'f : (q.1 == k') = false := by simpa using hqk'
        simp [List.filter_cons, hqkf, hq'f, ihq]

/-- Summing the per-key filtered sums over a duplicate-free list of keys
covering every element recovers the total sum: the groups partition the
rows. -/
theorem sum_partition (f : (String × ℚ × ℚ × ℚ) → ℚ) :
    ∀ (keys : List String) (l : List (String × ℚ × ℚ × ℚ)),
      keys.Nodup → (∀ p ∈ l, p.1 ∈ keys) →
      (keys.map (fun k => ((l.filter (fun p => p.1 == k)).map f).sum)).sum = (l.map f).sum := by
  intro keys
  induction keys with
  | nil =>
    intro l _ hall
    cases l with
    | nil => simp
    | cons p l' => exact absurd (hall p (List.mem_cons_self _ _)) (List.not_mem_nil _)
  | cons k ks ih =>
    intro l hnd hall
    have hkn : k ∉ ks := (List.nodup_cons.mp hnd).1
    have hnd' : ks.Nodup := (List.nodup_cons.mp hnd).2
    rw [List.map_cons, List.sum_cons]
    have hstep : ks.map (fun k' => ((l.filter (fun p => p.1 == k')).map f).sum) =
        ks.map (fun k' =>
          (((l.filter (fun p => !(p.1 == k))).filter (fun p => p.1 == k')).map f).sum) := by
      apply List.map_congr_left
      intro k' hk'
      have hkk' : k' ≠ k := fun heq => hkn (heq ▸ hk')
      rw [filter_ne_filter_eq hkk' l]
    rw [hstep]
    rw [ih (l.filter (fun p => !(p.1 == k))) hnd' ?_]
    · exact sum_map_filter_not f (fun p => p.1 == k) l
    · intro p hp
      obtain ⟨hpl, hpne⟩ := List.mem_filter.mp hp
      have hpk : p.1 ≠ k := by
        intro heq
        rw [heq] at hpne
        simp at hpne
      rcases List.mem_cons.mp (hall p hpl) with heq | hmem
      · exact absurd heq hpk
      · exact hmem

/-- The group keys of `groupSummary` are duplicate-free. -/
theorem keys_nodup (l : List (String × ℚ × ℚ × ℚ)) :
    (List.insertionSort (fun a b : String => a ≤ b) (l.map (fun p => p.1)).dedup).Nodup :=
  (List.perm_insertionSort _ _).nodup_iff.mpr (List.nodup_dedup _)

/-- The brand labels of the grouped summary are exactly the sorted,
deduplicated brand keys. -/
theorem groupSummary_brands (l : List (String × ℚ × ℚ × ℚ)) :
    (groupSummary l).map (fun r => r.brand) =
      List.insertionSort (fun a b : String => a ≤ b) (l.map (fun p => p.1)).dedup := by
  unfold groupSummary
  rw [List.map_map]
  conv_rhs => rw [← List.map_id
    (List.insertionSort (fun a b : String => a ≤ b) (l.map (fun p => p.1)).dedup)]
  apply List.map_congr_left
  intro k _
  rfl

/-- The sum of the grouped totals equals the sum of the per-row totals. -/
theorem groupSummary_total_sum (l : List (String × ℚ × ℚ × ℚ)) :
    ((groupSummary l).map (fun r => r.total)).sum = (l.map (fun p => p.2.2.2)).sum := by
  unfold groupSummary
  rw [List.map_map]
  refine sum_partition (fun p => p.2.2.2) _ l (keys_nodup l) ?_
  intro p hp
  rw [List.mem_insertionSort]
  exact List.mem_dedup.mpr (List.mem_map_of_mem _ hp)

/-- `sort_values` only permutes the summary rows. -/
theorem sort_values_desc_perm (l : List SummaryRow) :
    List.Perm (sort_values_desc l) l := by
  unfold sort_values_desc
  exact (List.reverse_perm _).trans ((List.perm_insertionSort _ _).trans (List.reverse_perm _))

/-- Reading the fourth component off the zipped quadruples gives back the
fourth list when all lengths agree. -/
theorem zip_map_fourth : ∀ (d : List ℚ) (a : List String) (b c : List ℚ),
    a.length = d.length → b.length = d.length → c.length = d.length →
    (List.zip a (List.zip b (List.zip c d))).map (fun p => p.2.2.2) = d := by
  intro d
  induction d with
  | nil =>
    intro a b c ha _ _
    have : a = [] := List.length_eq_zero.mp ha
    subst this
    simp
  | cons d0 d' ih =>
    intro a b c ha hb hc
    rcases a with _ | ⟨a0, a'⟩
    · simp at ha
    rcases b with _ | ⟨b0, b'⟩
    · simp at hb
    rcases c with _ | ⟨c0, c'⟩
    · simp at hc
    simp only [List.zip_cons_cons, List.map_cons]
    rw [ih a' b' c' (by simpa using ha) (by simpa using hb) (by simpa using hc)]

/-- C1: conservation.  Whenever `aggregate_sales` succeeds, the sum of
`Total Sales` over the summary equals the sum over all input rows of
(parsed consumer amount + parsed B2B amount) as read off the un-mutated
input (`inputRowTotals`), and the summary's brand labels are pairwise
distinct — no row's contribution is dropped or counted twice. -/
theorem claim_C1 (t t' : Table) (S : List SummaryRow)
    (h : aggregate_sales t = .ok (t', S)) :
    (∃ rt, inputRowTotals t = .ok rt ∧ (S.map (fun r => r.total)).sum = rt.sum) ∧
      (S.map (fun r => r.brand)).Nodup := by
  obtain ⟨tc, b, cons, b2b, hf, hc, hbs, hbn, hSmem, ht', hSdef⟩ := aggregate_ok_elim h
  have hconsLen : cons.length = t.rows.length := by
    have hl := seriesApply_length _ _ hc
    rw [length_column] at hl
    exact hl
  have hs1rows : (stage1 t cons).rows.length = t.rows.length := by
    apply setCol_rows_length
    simp [hconsLen]
  have hb2bLen : b2b.length = t.rows.length := by
    rcases b with _ | cb
    · rw [hbn rfl]
      simp [hs1rows]
    · have hl := seriesApply_length _ _ (hbs cb rfl)
      rw [length_column] at hl
      rw [hl, hs1rows]
  have hb2b' : (match b with
        | some cb => seriesApply (column t cb)
        | none => .ok (t.rows.map fun _ => (0 : ℚ))) = .ok b2b := by
    rcases b with _ | cb
    · show Except.ok (t.rows.map fun _ => (0 : ℚ)) = Except.ok b2b
      rw [hbn rfl]
      rw [List.map_const', List.map_const', hs1rows]
    · show seriesApply (column t cb) = Except.ok b2b
      have hcbm : b2bMatch (normName cb) = true := find_sales_columns_ok_b2b t tc cb hf
      have hneq : cb ≠ "__sales_consumer" := by
        intro heq
        rw [heq] at hcbm
        exact absurd hcbm (by decide)
      have hcol : column (stage1 t cons) cb = column t cb := by
        apply column_setCol_ne
        · exact hneq
        · simp [hconsLen]
      rw [← hcol]
      exact hbs cb rfl
  have hinput : inputRowTotals t = .ok (List.zipWith (· + ·) cons b2b) := by
    unfold inputRowTotals
    rw [hf]
    dsimp only
    rw [hc]
    dsimp only
    rw [hb2b']
  have hTotLen : (List.zipWith (· + ·) cons b2b).length = t.rows.length := by
    rw [List.length_zipWith, hconsLen, hb2bLen]
    exact Nat.min_self _
  have hs2rows : (stage2 t cons b2b).rows.length = t.rows.length := by
    unfold stage2
    rw [setCol_rows_length _ _ _ (by simp [hb2bLen, hs1rows])]
    exact hs1rows
  have hs3rows : (stage3 t cons b2b).rows.length = t.rows.length := by
    unfold stage3
    rw [setCol_rows_length _ _ _ (by simp [hTotLen, hs2rows])]
    exact hs2rows
  have hbrandsLen : (brandsOf t cons b2b).length = (List.zipWith (· + ·) cons b2b).length := by
    unfold brandsOf
    rw [List.length_map, length_column, hs3rows, hTotLen]
  have hquads : (quadsOf t cons b2b).map (fun p => p.2.2.2) =
      List.zipWith (· + ·) cons b2b := by
    unfold quadsOf
    exact zip_map_fourth _ _ _ _ hbrandsLen (hconsLen.trans hTotLen.symm)
      (hb2bLen.trans hTotLen.symm)
  subst hSdef
  constructor
  · refine ⟨List.zipWith (· + ·) cons b2b, hinput, ?_⟩
    rw [((sort_values_desc_perm (groupSummary (quadsOf t cons b2b))).map
      (fun r => r.total)).sum_eq]
    rw [groupSummary_total_sum, hquads]
  · rw [((sort_values_desc_perm (groupSummary (quadsOf t cons b2b))).map
      (fun r => r.brand)).nodup_iff]
    rw [groupSummary_brands]
    exact keys_nodup _

theorem claim_C1_witness : (sampleSummary.map (fun r => r.brand)).Nodup :=
  (claim_C1 sampleTable samplePost sampleSummary aggregate_sample).2

/-! ### Claim C3: order of the summary -/

/-- The order in which summary rows leave the ascending stable sort that
pandas reverses into the descending result: ascending totals, with tied
totals in descending brand order (because `groupby` emitted the brands
ascending and the input to the stable sort was reversed). -/
def lexA (a b : SummaryRow) : Prop :=
  a.total < b.total ∨ (a.total = b.total ∧ b.brand < a.brand)

theorem lexA_total_le {a b : SummaryRow} (h : lexA a b) : a.total ≤ b.total := by
  rcases h with h | ⟨h, _⟩
  · exact le_of_lt h
  · exact le_of_eq h

theorem orderedInsert_lexA (x : SummaryRow) : ∀ l : List SummaryRow,
    l.Pairwise lexA → (∀ y ∈ l, y.brand < x.brand) →
    (List.orderedInsert totalLE x l).Pairwise lexA := by
  intro l
  induction l with
  | nil =>
    intro _ _
    simp [List.orderedInsert]
  | cons y ys ih =>
    intro hl hx
    obtain ⟨hy, hys⟩ := List.pairwise_cons.mp hl
    simp only [List.orderedInsert]
    by_cases hxy : totalLE x y
    · rw [if_pos hxy]
      rw [List.pairwise_cons]
      constructor
      · intro z hz
        rcases List.mem_cons.mp hz with rfl | hzys
        · rcases lt_or_eq_of_le hxy with hlt | heq
          · exact Or.inl hlt
          · exact Or.inr ⟨heq, hx z (List.mem_cons_self _ _)⟩
        · have hyz : y.total ≤ z.total := lexA_total_le (hy z hzys)
          rcases lt_or_eq_of_le (le_trans hxy hyz) with hlt | heq
          · exact Or.inl hlt
          · exact Or.inr ⟨heq, hx z (List.mem_cons_of_mem _ hzys)⟩
      · exact hl
    · rw [if_neg hxy]
      rw [List.pairwise_cons]
      constructor
      · intro z hz
        rcases (List.mem_orderedInsert totalLE).mp hz with rfl | hzys
        · exact Or.inl (lt_of_not_le hxy)
        · exact hy z hzys
      · exact ih hys (fun z hz => hx z (List.mem_cons_of_mem _ hz))

theorem insertionSort_lexA : ∀ l : List SummaryRow,
    l.Pairwise (fun a b => b.brand < a.brand) →
    (List.insertionSort totalLE l).Pairwise lexA := by
  intro l
  induction l with
  | nil => intro _; simp [List.insertionSort]
  | cons x xs ih =>
    intro h
    obtain ⟨hx, hxs⟩ := List.pairwise_cons.mp h
    simp only [List.insertionSort]
    apply orderedInsert_lexA
    · exact ih hxs
    · intro y hy
      exact hx y ((List.mem_insertionSort totalLE).mp hy)

/-- The grouped summary lists its rows in strictly ascending brand order
(pandas `groupby` sorts the distinct keys). -/
theorem groupSummary_brand_sorted (l : List (String × ℚ × ℚ × ℚ)) :
    (groupSummary l).Pairwise (fun a b : SummaryRow => a.brand < b.brand) := by
  unfold groupSummary
  rw [List.pairwise_map]
  have hsorted : (List.insertionSort (fun a b : String => a ≤ b)
      (l.map (fun p => p.1)).dedup).Pairwise (fun a b : String => a ≤ b) :=
    List.sorted_insertionSort _ _
  have hnd : (List.insertionSort (fun a b : String => a ≤ b)
      (l.map (fun p => p.1)).dedup).Pairwise (fun a b : String => a ≠ b) := keys_nodup l
  exact (hsorted.and hnd).imp (fun h => lt_of_le_of_ne h.1 h.2)

/-- C3 (amended): the summary is sorted by `Total Sales` in descending
order, but equal totals are ordered by ascending brand label (the
`groupby` step emits the groups in ascending lexicographic brand order and
pandas' descending `sort_values` — the reverse of an ascending stable
argsort of the reversed array — keeps the order of tied values), not by
first-encountered order in the input.  The order is still deterministic:
it is fully determined by (total descending, brand ascending). -/
theorem claim_C3 (t t' : Table) (S : List SummaryRow)
    (h : aggregate_sales t = .ok (t', S)) :
    S.Pairwise (fun a b => b.total < a.total ∨ (b.total = a.total ∧ a.brand < b.brand)) := by
  obtain ⟨tc, b, cons, b2b, _, _, _, _, _, _, hSdef⟩ := aggregate_ok_elim h
  subst hSdef
  unfold sort_values_desc
  rw [List.pairwise_reverse]
  apply insertionSort_lexA
  rw [List.pairwise_reverse]
  exact groupSummary_brand_sorted _

/-- The tie-breaking counterexample input: the Theonia row comes first in
the file, the PupGrade row second, and both brands total `100.0`. -/
def tieTable : Table :=
  ⟨["SKU", "Ordered Product Sales"],
   [[("SKU", .str "TH_1"), ("Ordered Product Sales", .str "100")],
    [("SKU", .str "EU-PG-1"), ("Ordered Product Sales", .str "100")]]⟩

/-- The caller's frame after aggregating `tieTable`. -/
def tiePost : Table :=
  ⟨["SKU", "Ordered Product Sales", "__sales_consumer", "__sales_b2b", "__sales_total", "Brand"],
   [[("SKU", .str "TH_1"), ("Ordered Product Sales", .str "100"),
     ("__sales_consumer", .num 100), ("__sales_b2b", .num 0),
     ("__sales_total", .num 100), ("Brand", .str "Theonia EU")],
    [("SKU", .str "EU-PG-1"), ("Ordered Product Sales", .str "100"),
     ("__sales_consumer", .num 100), ("__sales_b2b", .num 0),
     ("__sales_total", .num 100), ("Brand", .str "PupGrade EU")]]⟩

/-- The summary returned for `tieTable`: PupGrade EU first. -/
def tieSummary : List SummaryRow :=
  [⟨"PupGrade EU", 100, 0, 100⟩, ⟨"Theonia EU", 100, 0, 100⟩]

theorem aggregate_tie : aggregate_sales tieTable = .ok (tiePost, tieSummary) := by decide!

/-- C3 counterexample: on `tieTable` the brand of the first input row is
`Theonia EU` and both brands have equal Total Sales `100.0`, yet the
summary lists `PupGrade EU` (alphabetically first) before `Theonia EU` —
the tie is not broken by first-encountered brand order as claimed. -/
theorem claim_C3_counterexample :
    aggregate_sales tieTable =
        .ok (tiePost, [⟨"PupGrade EU", 100, 0, 100⟩, ⟨"Theonia EU", 100, 0, 100⟩]) ∧
      detect_brand "TH_1" = "Theonia EU" ∧
      detect_brand "EU-PG-1" = "PupGrade EU" :=
  ⟨aggregate_tie, by decide, by decide⟩

theorem claim_C3_witness :
    tieSummary.Pairwise
      (fun a b => b.total < a.total ∨ (b.total = a.total ∧ a.brand < b.brand)) :=
  claim_C3 tieTable tiePost tieSummary aggregate_tie

end BrandSales
